import Mathlib

/-!
Verification of the VCD X-state analysis scripts
(`build/check_x_states.py` and `build/check_x_detailed.py`).

The Python sources are shallowly embedded below.  Python strings are `String`,
Python integers are `Int` (timestamps can in principle be negative, since the
scripts parse them with `int(...)`), Python dictionaries keyed by signal
identifiers are association lists `List (String × β)` with insertion-order
semantics (`dictInsert` overwrites in place, `dictUpdate` modifies in place).
Python string primitives (`strip`, `split`, `lower`, `startswith`, slicing,
`int(...)`) are modelled on the ASCII fragment the scripts exercise.
-/

namespace CheckX

/-! ### Models of the Python string/number primitives -/

/-- Model of `str.strip()`: drop whitespace from both ends. -/
def pyStrip (s : String) : String :=
  String.mk (((s.data.dropWhile Char.isWhitespace).reverse.dropWhile Char.isWhitespace).reverse)

def pySplitAux : List Char → List Char → List String
  | [], acc => if acc.isEmpty then [] else [String.mk acc.reverse]
  | c :: cs, acc =>
    if c.isWhitespace then
      if acc.isEmpty then pySplitAux cs [] else String.mk acc.reverse :: pySplitAux cs []
    else pySplitAux cs (c :: acc)

/-- Model of `str.split()` with no argument: split on whitespace runs,
discarding empty fields. -/
def pySplit (s : String) : List String := pySplitAux s.data []

/-- Model of `str.startswith(pre)`. -/
def pyStartsWith (s pre : String) : Bool := pre.data.isPrefixOf s.data

/-- Model of `s[0]` for a nonempty string, as a 1-character string
(Python indexing yields a 1-character string). -/
def strHead1 (s : String) : String :=
  match s.data with
  | [] => ""
  | c :: _ => String.mk [c]

/-- Model of the slice `s[1:]`. -/
def strTail (s : String) : String :=
  match s.data with
  | [] => ""
  | _ :: cs => String.mk cs

/-- Model of `len(s)`. -/
def strLen (s : String) : Nat := s.data.length

/-- Model of the Python substring test `pat in s`. -/
def containsSub (s pat : String) : Bool := s.data.tails.any (fun t => pat.data.isPrefixOf t)

/-- ASCII model of `str.lower()` on a single character. -/
def pyLowerChar (c : Char) : Char :=
  if 65 ≤ c.toNat ∧ c.toNat ≤ 90 then Char.ofNat (c.toNat + 32) else c

/-- ASCII model of `str.lower()`. -/
def pyLowerStr (s : String) : String := String.mk (s.data.map pyLowerChar)

/-- Model of the test `'x' in s.lower()` used throughout both scripts. -/
def containsXLower (s : String) : Bool := s.data.any (fun c => pyLowerChar c == 'x')

/-- Spec-side predicate: the value contains an unknown-state character
`x` or `X` (written as the spec describes it, for comparison with
`containsXLower`). -/
def containsXX (s : String) : Bool := s.data.any (fun c => c == 'x' || c == 'X')

/-- Spec-side predicate: the value contains any of `x`, `X`, `z`, `Z`
(the character set named by the spec for `hasXAtInit`). -/
def hasUnknownXZ (s : String) : Bool :=
  s.data.any (fun c => c == 'x' || c == 'X' || c == 'z' || c == 'Z')

def digitsValAux : Nat → List Char → Option Nat
  | acc, [] => some acc
  | acc, '_' :: c :: rest =>
    if c.isDigit then digitsValAux (acc * 10 + (c.toNat - 48)) rest else none
  | _, ['_'] => none
  | acc, c :: rest =>
    if c.isDigit then digitsValAux (acc * 10 + (c.toNat - 48)) rest else none

/-- Digit-string value: ASCII digits, single underscores allowed between
digits (as Python's `int` accepts), `none` otherwise. -/
def digitsVal : List Char → Option Nat
  | [] => none
  | '_' :: _ => none
  | c :: rest => if c.isDigit then digitsValAux (c.toNat - 48) rest else none

/-- ASCII model of Python `int(s)`: optional surrounding whitespace, optional
sign, nonempty digit string; raises (here: `none`) otherwise. -/
def pyInt (s : String) : Option Int :=
  match (pyStrip s).data with
  | '-' :: rest => (digitsVal rest).map (fun n => -(n : Int))
  | '+' :: rest => (digitsVal rest).map (fun n => (n : Int))
  | l => (digitsVal l).map (fun n => (n : Int))

def natOfDigits (l : List Char) : Nat := l.foldl (fun acc c => acc * 10 + (c.toNat - 48)) 0

def splitNlAux : List Char → List Char → List String
  | [], acc => [String.mk acc.reverse]
  | c :: cs, acc =>
    if c = '\n' then String.mk acc.reverse :: splitNlAux cs [] else splitNlAux cs (c :: acc)

/-- Model of `content.split('\n')`: split at every newline, keeping empty lines. -/
def splitNl (s : String) : List String := splitNlAux s.data []

/-! ### Python dictionaries as association lists -/

/-- Model of `d[k] = v` on a Python dict: overwrite in place if the key is
present (keeping its position), else append. -/
def dictInsert {β : Type} (k : String) (v : β) : List (String × β) → List (String × β)
  | [] => [(k, v)]
  | (k', v') :: rest => if k' = k then (k, v) :: rest else (k', v') :: dictInsert k v rest

/-- Model of `if k in d: mutate d[k]`: apply `f` to the entry for `k` when
present, do nothing otherwise. -/
def dictUpdate {β : Type} (k : String) (f : β → β) : List (String × β) → List (String × β)
  | [] => []
  | (k', v') :: rest => if k' = k then (k', f v') :: rest else (k', v') :: dictUpdate k f rest

/-! ### Data model (check_x_detailed.py) -/

/-- Entry of the `signals` dict of `analyze_vcd_detailed`:
`{'name': ..., 'width': ..., 'values': [...]}`. -/
structure SigInfo where
  name : String
  width : Nat
  values : List (Int × String)
deriving DecidableEq

/-- State of the header pass of `analyze_vcd_detailed` (lines 31–50):
the scope stack and the signal table. -/
structure HState where
  stack : List String
  signals : List (String × SigInfo)
deriving DecidableEq

/-- State of the value pass of `analyze_vcd_detailed` (lines 52–80). -/
structure VState where
  time : Int
  inDumpvars : Bool
  signals : List (String × SigInfo)
deriving DecidableEq

/-- Word character for the regex class `\w` (ASCII fragment). -/
def isWordChar (c : Char) : Bool := c.isAlphanum || c == '_'

/-- Model of `re.match(r'\$var\s+\w+\s+(\d+)\s+(\S+)\s+(\S+)', line)`
(check_x_detailed.py line 44).  Since the character classes `\w`, `\d`, `\S`
are disjoint from `\s`, the anchored match succeeds exactly when the line's
whitespace-separated tokens start with `$var`, a word, a digit string, and two
further tokens; the groups are the digit value and those two tokens. -/
def varMatch (line : String) : Option (Nat × String × String) :=
  match pySplit line with
  | t0 :: t1 :: t2 :: t3 :: t4 :: _ =>
    if t0 = "$var" && t1.data.all isWordChar && t2.data.all Char.isDigit then
      some (natOfDigits t2.data, t3, t4)
    else none
  | _ => none

def joinDots (l : List String) : String := String.intercalate "." l

/-- One header-pass iteration of `analyze_vcd_detailed` (lines 34–50):
`$scope` pushes, `$upscope` pops (guarded), `$var` inserts into the signal
table with the scope-qualified name and an empty value list. -/
def headerStep (st : HState) (rawLine : String) : HState :=
  let line := pyStrip rawLine
  if pyStartsWith line "$scope" then
    match pySplit line with
    | _ :: _ :: p2 :: _ => { st with stack := st.stack ++ [p2] }
    | _ => st
  else if pyStartsWith line "$upscope" then
    { st with stack := st.stack.dropLast }
  else if pyStartsWith line "$var" then
    match varMatch line with
    | some (w, sid, nm) =>
      { st with signals := dictInsert sid ⟨joinDots (st.stack ++ [nm]), w, []⟩ st.signals }
    | none => st
  else st

/-- Model of `signals[sig_id]['values'].append((current_time, value))`,
guarded by `if sig_id in signals`. -/
def appendVal (sid : String) (entry : Int × String) (st : VState) : VState :=
  { st with
    signals := dictUpdate sid (fun info => { info with values := info.values ++ [entry] }) st.signals }

/-- One value-pass iteration of `analyze_vcd_detailed` (lines 56–80).
The branch structure mirrors the Python `elif` chain: `#` time markers with a
guarded `int` parse, `$dumpvars` / `$end` flag updates, then vector changes
`b<bits> <id>` and the scalar fallback `value = line[0]; sig_id = line[1:]`
for any other line of length ≥ 2 not starting with `$`. -/
def valueStep (st : VState) (rawLine : String) : VState :=
  let line := pyStrip rawLine
  if pyStartsWith line "#" then
    match pyInt (strTail line) with
    | some t => { st with time := t }
    | none => st
  else if pyStartsWith line "$dumpvars" then { st with inDumpvars := true }
  else if pyStartsWith line "$end" then
    if st.inDumpvars then { st with inDumpvars := false } else st
  else if line = "" then st
  else if pyStartsWith line "$" then st
  else if pyStartsWith line "b" || pyStartsWith line "B" then
    match pySplit line with
    | p0 :: p1 :: _ => appendVal p1 (st.time, strTail p0) st
    | _ => st
  else if 2 ≤ strLen line then
    appendVal (strTail line) (st.time, strHead1 line) st
  else st

def headerPass (lines : List String) : HState := lines.foldl headerStep ⟨[], []⟩

def valuePass (lines : List String) (st : VState) : VState := lines.foldl valueStep st

/-- The two passes of `analyze_vcd_detailed` over the same line list:
the header pass builds the full signal table before the value pass appends
any record. -/
def analyzeLines (lines : List String) : List (String × SigInfo) :=
  (valuePass lines ⟨0, false, (headerPass lines).signals⟩).signals

/-- `analyze_vcd_detailed(filename)` on the file's text (the `open`/`read`
and existence check are external I/O, out of scope per the spec). -/
def analyze_vcd_detailed (content : String) : List (String × SigInfo) :=
  analyzeLines (splitNl content)

/-! ### check_x_states.py: value pass and per-signal X scan -/

/-- State of the value loop of `parse_vcd` in check_x_states.py
(lines 46–74): the `values` dict maps identifiers to `(time, value)` lists. -/
structure PState where
  time : Int
  inDumpvars : Bool
  values : List (String × List (Int × String))
deriving DecidableEq

def statesAppend (sid : String) (entry : Int × String) (ps : PState) : PState :=
  { ps with values := dictUpdate sid (fun l => l ++ [entry]) ps.values }

/-- One value-loop iteration of `parse_vcd` (check_x_states.py lines 49–74);
identical branch structure to `valueStep`, over the plain `values` dict. -/
def statesValueStep (ps : PState) (rawLine : String) : PState :=
  let line := pyStrip rawLine
  if pyStartsWith line "#" then
    match pyInt (strTail line) with
    | some t => { ps with time := t }
    | none => ps
  else if pyStartsWith line "$dumpvars" then { ps with inDumpvars := true }
  else if pyStartsWith line "$end" then
    if ps.inDumpvars then { ps with inDumpvars := false } else ps
  else if line = "" then ps
  else if pyStartsWith line "$" then ps
  else if pyStartsWith line "b" || pyStartsWith line "B" then
    match pySplit line with
    | p0 :: p1 :: _ => statesAppend p1 (ps.time, strTail p0) ps
    | _ => ps
  else if 2 ≤ strLen line then
    statesAppend (strTail line) (ps.time, strHead1 line) ps
  else ps

/-- Inner loop of `find_x_after_reset` (check_x_states.py lines 85–89): the
first record with `time >= reset_release_time` whose value satisfies
`'x' in value.lower()`; `break` after the first hit. -/
def findXScan : List (Int × String) → Int → Option (Int × String)
  | [], _ => none
  | (tm, v) :: rest, t0 =>
    if t0 ≤ tm ∧ containsXLower v = true then some (tm, v) else findXScan rest t0

/-- `find_x_after_reset(signals, values, reset_release_time)`
(check_x_states.py lines 78–91). -/
def find_x_after_reset (signals : List (String × String))
    (values : List (String × List (Int × String))) (t0 : Int) :
    List (String × Int × String) :=
  values.foldl (fun acc p =>
    match findXScan p.2 t0 with
    | some (tm, v) => acc ++ [((signals.lookup p.1).getD p.1, tm, v)]
    | none => acc) []

/-- Body of the header loop of `parse_vcd` (check_x_states.py lines 38–41):
for one regex match, `signals[sig_id] = sig_name; values[sig_id] = []` —
overwrite the name and reset the value list for the matched identifier. -/
def statesVarAction (tables : List (String × String) × List (String × List (Int × String)))
    (m : String × String) :
    List (String × String) × List (String × List (Int × String)) :=
  (dictInsert m.1 m.2 tables.1, dictInsert m.1 [] tables.2)

/-- `parse_vcd` (check_x_states.py lines 24–76): the header loop folds
`statesVarAction` over the `(sig_id, sig_name)` pairs delivered by
`re.finditer` — taken here as the parameter `ms`, so every property proved
below holds for every possible match sequence — and only then does the value
loop run over `content.split('\n')`; the value loop never touches the
`signals` table. -/
def parse_vcd_tables (ms : List (String × String)) (lines : List String) :
    List (String × String) × List (String × List (Int × String)) :=
  let h := ms.foldl statesVarAction ([], [])
  (h.1, (lines.foldl statesValueStep ⟨0, false, h.2⟩).values)

/-! ### Per-signal classification (check_x_detailed.py, check_test lines 115–161) -/

/-- `has_x_init` (lines 126–128): `init_val = values[0][1] if values else ''`,
then `'x' in init_val.lower() if init_val else False`. -/
def hasXInitF : List (Int × String) → Bool
  | [] => false
  | (_, v) :: _ => if v = "" then false else containsXLower v

/-- `last_before_reset` (lines 130–136): last value in the longest prefix of
records with `time <= RESET_RELEASE` (the loop breaks at the first later
record).  Computed by the script but never used afterwards. -/
def lastBeforeRelease : List (Int × String) → Int → Option String → Option String
  | [], _, acc => acc
  | (tm, v) :: rest, t0, acc =>
    if tm ≤ t0 then lastBeforeRelease rest t0 (some v) else acc

/-- `first_after_reset` (lines 138–143): value of the first record with
`time > POST_RESET`. -/
def firstAfterPost : List (Int × String) → Int → Option String
  | [], _ => none
  | (tm, v) :: rest, t0 => if t0 < tm then some v else firstAfterPost rest t0

/-- `has_x_post` / `x_post_time` (lines 145–152): the first record with
`time > RESET_RELEASE and 'x' in val.lower()`; `break` after the first hit. -/
def firstXPost : List (Int × String) → Int → Option (Int × String)
  | [], _ => none
  | (tm, v) :: rest, t0 =>
    if t0 < tm ∧ containsXLower v = true then some (tm, v) else firstXPost rest t0

/-- The `x_cleared` condition (line 157):
`has_x_init and first_after_reset and 'x' not in first_after_reset.lower()`,
with Python truthiness on the optional string (`None` and `''` are falsy). -/
def xClearedF (values : List (Int × String)) (postReset : Int) : Bool :=
  hasXInitF values &&
    match firstAfterPost values postReset with
    | some v => if v = "" then false else ! containsXLower v
    | none => false

/-- `RESET_RELEASE` (check_x_detailed.py line 112). -/
def RESET_RELEASE : Int := 300000

/-- `POST_RESET` (check_x_detailed.py line 113). -/
def POST_RESET : Int := 500000

/-- The signal filter (lines 122–124): a signal is analyzed when
`'DUT' in name or 'async_fifo' in name.lower()`. -/
def includedSignal (name : String) : Bool :=
  containsSub name "DUT" || containsSub (pyLowerStr name) "async_fifo"

structure CheckResult where
  xAtInit : List String
  xCleared : List String
  xPersistent : List (String × Int)
deriving DecidableEq

/-- The classification loop of `check_test` (lines 115–161), accumulating the
`x_at_init`, `x_cleared` and `x_persistent` lists over the signal table. -/
def check_test_loop (signals : List (String × SigInfo)) : CheckResult :=
  signals.foldl (fun acc p =>
    let info := p.2
    if info.values = [] then acc
    else if ! includedSignal info.name then acc
    else
      let acc1 :=
        if hasXInitF info.values then { acc with xAtInit := acc.xAtInit ++ [info.name] } else acc
      let acc2 :=
        if xClearedF info.values POST_RESET then
          { acc1 with xCleared := acc1.xCleared ++ [info.name] }
        else acc1
      match firstXPost info.values RESET_RELEASE with
      | some (tm, _) => { acc2 with xPersistent := acc2.xPersistent ++ [(info.name, tm)] }
      | none => acc2) ⟨[], [], []⟩

/-! ### Report aggregation and exit codes -/

inductive TStatus where
  | pass
  | warn
  | fail
  | error
deriving DecidableEq

/-- Per-test status printed by `main` of check_x_states.py (lines 168–175):
`None` → ERROR, empty list → PASS, nonempty → WARN. -/
def statesStatus {α : Type} : Option (List α) → TStatus
  | none => TStatus.error
  | some [] => TStatus.pass
  | some (_ :: _) => TStatus.warn

/-- `total_x_signals` of check_x_states.py `main` (lines 155–161): only
truthy (nonempty) result lists contribute; `None` results contribute nothing. -/
def statesTotal {α : Type} (results : List (Option (List α))) : Nat :=
  results.foldl (fun acc r =>
    match r with
    | some l => if l.isEmpty then acc else acc + l.length
    | none => acc) 0

/-- Exit code of check_x_states.py `main` (line 179):
`0 if total_x_signals == 0 else 1`. -/
def statesExit {α : Type} (results : List (Option (List α))) : Nat :=
  if statesTotal results = 0 then 0 else 1

/-- Per-test status printed by `main` of check_x_detailed.py (lines 204–212):
error result → ERROR, nonempty persistent list → FAIL, else PASS. -/
def detailedStatus {α : Type} : Option (List α) → TStatus
  | none => TStatus.error
  | some [] => TStatus.pass
  | some (_ :: _) => TStatus.fail

/-- `all_pass` of check_x_detailed.py `main` (lines 203–212): cleared by an
error result or a nonempty persistent list. -/
def detailedAllPass {α : Type} (results : List (Option (List α))) : Bool :=
  results.foldl (fun acc r =>
    match r with
    | none => false
    | some l => if l.isEmpty then acc else false) true

/-- Exit code of check_x_detailed.py `main` (lines 216–221):
`0` when `all_pass` else `1`. -/
def detailedExit {α : Type} (results : List (Option (List α))) : Nat :=
  if detailedAllPass results then 0 else 1

/-! ### Derived views of the value pass, used to state the theorems -/

/-- The current time after one value-pass line: a `#` line with a parseable
integer sets it, every other line keeps it. -/
def timeAfter (tm : Int) (rawLine : String) : Int :=
  let line := pyStrip rawLine
  if pyStartsWith line "#" then
    match pyInt (strTail line) with
    | some t => t
    | none => tm
  else tm

/-- The records a single value-pass line contributes to the timeline of
signal `sid` (assuming `sid` is in the table), at current time `tm`:
the per-identifier view of the `valueStep` branches. -/
def lineAppends (sid : String) (tm : Int) (rawLine : String) : List (Int × String) :=
  let line := pyStrip rawLine
  if pyStartsWith line "#" then []
  else if pyStartsWith line "$dumpvars" then []
  else if pyStartsWith line "$end" then []
  else if line = "" then []
  else if pyStartsWith line "$" then []
  else if pyStartsWith line "b" || pyStartsWith line "B" then
    match pySplit line with
    | p0 :: p1 :: _ => if p1 = sid then [(tm, strTail p0)] else []
    | _ => []
  else if 2 ≤ strLen line then
    if strTail line = sid then [(tm, strHead1 line)] else []
  else []

/-- All records the value pass contributes to the timeline of `sid`,
threading the current time through the time markers. -/
def collectChangesFor (sid : String) : Int → List String → List (Int × String)
  | _, [] => []
  | tm, l :: rest => lineAppends sid tm l ++ collectChangesFor sid (timeAfter tm l) rest

/-- The successfully parsed `#` time markers of a line list, in order. -/
def markersOf (lines : List String) : List Int :=
  lines.filterMap (fun l =>
    if pyStartsWith (pyStrip l) "#" then pyInt (strTail (pyStrip l)) else none)

/-- The timestamps of a record list are non-decreasing in record order. -/
def timesNonDecr : List (Int × String) → Bool
  | [] => true
  | [_] => true
  | a :: b :: rest => decide (a.1 ≤ b.1) && timesNonDecr (b :: rest)

/-- The line is a `$var` declaration whose matched identifier is `sid`. -/
def declaresVar (sid : String) (rawLine : String) : Bool :=
  pyStartsWith (pyStrip rawLine) "$var" &&
    match varMatch (pyStrip rawLine) with
    | some (_, sid', _) => sid' == sid
    | none => false

/-! ## Helper lemmas: characters and strings -/

theorem pyLowerChar_beq_x (c : Char) : (pyLowerChar c == 'x') = (c == 'x' || c == 'X') := by
  by_cases h : 65 ≤ c.toNat ∧ c.toNat ≤ 90
  · have hd : c.toNat = 65 ∨ c.toNat = 66 ∨ c.toNat = 67 ∨ c.toNat = 68 ∨ c.toNat = 69 ∨
      c.toNat = 70 ∨ c.toNat = 71 ∨ c.toNat = 72 ∨ c.toNat = 73 ∨ c.toNat = 74 ∨
      c.toNat = 75 ∨ c.toNat = 76 ∨ c.toNat = 77 ∨ c.toNat = 78 ∨ c.toNat = 79 ∨
      c.toNat = 80 ∨ c.toNat = 81 ∨ c.toNat = 82 ∨ c.toNat = 83 ∨ c.toNat = 84 ∨
      c.toNat = 85 ∨ c.toNat = 86 ∨ c.toNat = 87 ∨ c.toNat = 88 ∨ c.toNat = 89 ∨
      c.toNat = 90 := by omega
    have hofn := Char.ofNat_toNat c
    rcases hd with h'|h'|h'|h'|h'|h'|h'|h'|h'|h'|h'|h'|h'|h'|h'|h'|h'|h'|h'|h'|h'|h'|h'|h'|h'|h' <;>
      (rw [h'] at hofn; rw [← hofn]; decide)
  · have hx : pyLowerChar c = c := by unfold pyLowerChar; rw [if_neg h]
    rw [hx]
    by_cases hX : c = 'X'
    · exact absurd (hX ▸ (by decide : 65 ≤ Char.toNat 'X' ∧ Char.toNat 'X' ≤ 90)) h
    · have hb : (c == 'X') = false := by simp [hX]
      rw [hb, Bool.or_false]

theorem anyLower_eq (l : List Char) :
    (l.any (fun c => pyLowerChar c == 'x')) = (l.any (fun c => c == 'x' || c == 'X')) := by
  induction l with
  | nil => rfl
  | cons c cs ih => simp only [List.any_cons, ih, pyLowerChar_beq_x]

theorem containsXLower_eq (s : String) : containsXLower s = containsXX s :=
  anyLower_eq s.data

theorem data_hash : "#".data = ['#'] := rfl

theorem data_dollar : "$".data = ['$'] := rfl

theorem data_low_b : "b".data = ['b'] := rfl

theorem data_cap_B : "B".data = ['B'] := rfl

theorem data_dumpvars : "$dumpvars".data = ['$', 'd', 'u', 'm', 'p', 'v', 'a', 'r', 's'] := rfl

theorem data_enddv : "$end".data = ['$', 'e', 'n', 'd'] := rfl

theorem data_scope : "$scope".data = ['$', 's', 'c', 'o', 'p', 'e'] := rfl

theorem data_upscope : "$upscope".data = ['$', 'u', 'p', 's', 'c', 'o', 'p', 'e'] := rfl

theorem data_vardecl : "$var".data = ['$', 'v', 'a', 'r'] := rfl

theorem data_nil : "".data = [] := rfl

/-! ## Helper lemmas: dictionary operations -/

theorem lookup_dictInsert_self {β : Type} (k : String) (v : β) (tbl : List (String × β)) :
    List.lookup k (dictInsert k v tbl) = some v := by
  induction tbl with
  | nil => simp [dictInsert, List.lookup_cons]
  | cons p rest ih =>
    obtain ⟨k', v'⟩ := p
    by_cases h : k' = k
    · subst h; simp [dictInsert, List.lookup_cons]
    · simp only [dictInsert, if_neg h, List.lookup_cons, ih]
      have hb : (k == k') = false := by simp [Ne.symm h]
      simp [hb, ih]

theorem lookup_dictInsert_ne {β : Type} {k k' : String} (h : k' ≠ k) (v : β)
    (tbl : List (String × β)) : List.lookup k' (dictInsert k v tbl) = List.lookup k' tbl := by
  induction tbl with
  | nil =>
    have hb : (k' == k) = false := by simp [h]
    simp [dictInsert, List.lookup_cons, hb]
  | cons p rest ih =>
    obtain ⟨k₀, v₀⟩ := p
    by_cases h0 : k₀ = k
    · subst h0
      have hb : (k' == k₀) = false := by simp [h]
      simp [dictInsert, List.lookup_cons, hb]
    · simp only [dictInsert, if_neg h0, List.lookup_cons]
      by_cases h1 : k' = k₀
      · subst h1; simp
      · have hb : (k' == k₀) = false := by simp [h1]
        simp [hb, ih]

theorem lookup_dictUpdate_self {β : Type} (k : String) (f : β → β) (tbl : List (String × β)) :
    List.lookup k (dictUpdate k f tbl) = (List.lookup k tbl).map f := by
  induction tbl with
  | nil => simp [dictUpdate]
  | cons p rest ih =>
    obtain ⟨k', v'⟩ := p
    by_cases h : k' = k
    · subst h; simp [dictUpdate, List.lookup_cons]
    · have hb : (k == k') = false := by simp [Ne.symm h]
      simp only [dictUpdate, if_neg h, List.lookup_cons, hb, ih]

theorem lookup_dictUpdate_ne {β : Type} {k k' : String} (h : k' ≠ k) (f : β → β)
    (tbl : List (String × β)) : List.lookup k' (dictUpdate k f tbl) = List.lookup k' tbl := by
  induction tbl with
  | nil => simp [dictUpdate]
  | cons p rest ih =>
    obtain ⟨k₀, v₀⟩ := p
    by_cases h0 : k₀ = k
    · subst h0
      have hb : (k' == k₀) = false := by simp [h]
      simp [dictUpdate, List.lookup_cons, hb]
    · simp only [dictUpdate, if_neg h0, List.lookup_cons]
      by_cases h1 : k' = k₀
      · subst h1; simp
      · have hb : (k' == k₀) = false := by simp [h1]
        simp [hb, ih]

theorem dictUpdate_absent {β : Type} {k : String} (f : β → β) {tbl : List (String × β)}
    (h : List.lookup k tbl = none) : dictUpdate k f tbl = tbl := by
  induction tbl with
  | nil => rfl
  | cons p rest ih =>
    obtain ⟨k', v'⟩ := p
    by_cases h0 : k' = k
    · subst h0; simp [List.lookup_cons] at h
    · rw [List.lookup_cons] at h
      have hb : (k == k') = false := by simp [Ne.symm h0]
      rw [hb] at h
      simp only [dictUpdate, if_neg h0]
      rw [ih h]

theorem startsWith_shape {s pre : String} (h : pyStartsWith s pre = true) :
    ∃ rest, s.data = pre.data ++ rest := by
  unfold pyStartsWith at h
  rw [List.isPrefixOf_iff_prefix] at h
  obtain ⟨t, ht⟩ := h
  exact ⟨t, ht.symm⟩

theorem map_values_append_nil (o : Option SigInfo) :
    o.map (fun info => SigInfo.mk info.name info.width (info.values ++ [])) = o := by
  cases o with
  | none => rfl
  | some info => cases info; simp

theorem lookup_dictInsert {β : Type} (k sid : String) (v : β) (tbl : List (String × β)) :
    List.lookup sid (dictInsert k v tbl) = if sid = k then some v else List.lookup sid tbl := by
  by_cases h : sid = k
  · subst h; simp [lookup_dictInsert_self]
  · simp [h, lookup_dictInsert_ne h]

/-! ## Step lemmas for the value pass -/

theorem valueStep_time (st : VState) (l : String) : (valueStep st l).time = timeAfter st.time l := by
  simp only [valueStep, timeAfter]
  repeat' split
  all_goals simp_all [appendVal]

theorem valueStep_lookup (st : VState) (sid : String) (l : String) :
    List.lookup sid (valueStep st l).signals =
      (List.lookup sid st.signals).map
        (fun info => SigInfo.mk info.name info.width (info.values ++ lineAppends sid st.time l)) := by
  have hself : ∀ e : Int × String,
      List.lookup sid (appendVal sid e st).signals =
        (List.lookup sid st.signals).map
          (fun info => SigInfo.mk info.name info.width (info.values ++ [e])) := by
    intro e
    exact lookup_dictUpdate_self sid _ st.signals
  have hne : ∀ (j : String) (e : Int × String), j ≠ sid →
      List.lookup sid (appendVal j e st).signals = List.lookup sid st.signals := by
    intro j e hj
    exact lookup_dictUpdate_ne (fun hc => hj hc.symm) _ st.signals
  simp only [valueStep, lineAppends]
  by_cases h1 : pyStartsWith (pyStrip l) "#" = true
  · rw [if_pos h1, if_pos h1]
    cases hm : pyInt (strTail (pyStrip l)) <;>
      simp only [hm, map_values_append_nil]
  · rw [if_neg h1, if_neg h1]
    by_cases h2 : pyStartsWith (pyStrip l) "$dumpvars" = true
    · rw [if_pos h2, if_pos h2]
      exact (map_values_append_nil _).symm
    · rw [if_neg h2, if_neg h2]
      by_cases h3 : pyStartsWith (pyStrip l) "$end" = true
      · rw [if_pos h3, if_pos h3]
        cases hdv : st.inDumpvars <;> simp [hdv, map_values_append_nil]
      · rw [if_neg h3, if_neg h3]
        by_cases h4 : pyStrip l = ""
        · rw [if_pos h4, if_pos h4]
          exact (map_values_append_nil _).symm
        · rw [if_neg h4, if_neg h4]
          by_cases h5 : pyStartsWith (pyStrip l) "$" = true
          · rw [if_pos h5, if_pos h5]
            exact (map_values_append_nil _).symm
          · rw [if_neg h5, if_neg h5]
            by_cases h6 : (pyStartsWith (pyStrip l) "b" || pyStartsWith (pyStrip l) "B") = true
            · rw [if_pos h6, if_pos h6]
              cases hsp : pySplit (pyStrip l) with
              | nil => simp only [map_values_append_nil]
              | cons p0 tl0 =>
                cases tl0 with
                | nil => simp only [map_values_append_nil]
                | cons p1 tl1 =>
                  dsimp only
                  by_cases hp : p1 = sid
                  · subst hp
                    rw [if_pos rfl]
                    exact hself _
                  · rw [if_neg hp, hne p1 _ hp]
                    exact (map_values_append_nil _).symm
            · rw [if_neg h6, if_neg h6]
              by_cases h7 : 2 ≤ strLen (pyStrip l)
              · rw [if_pos h7, if_pos h7]
                by_cases hp : strTail (pyStrip l) = sid
                · rw [hp, if_pos rfl]
                  exact hself _
                · rw [if_neg hp, hne _ _ hp]
                  exact (map_values_append_nil _).symm
              · rw [if_neg h7, if_neg h7]
                exact (map_values_append_nil _).symm

theorem valuePass_lookup (lines : List String) (st : VState) (sid : String) :
    List.lookup sid (valuePass lines st).signals =
      (List.lookup sid st.signals).map
        (fun info =>
          SigInfo.mk info.name info.width (info.values ++ collectChangesFor sid st.time lines)) := by
  induction lines generalizing st with
  | nil =>
    simp only [valuePass, List.foldl_nil, collectChangesFor]
    exact (map_values_append_nil _).symm
  | cons l rest ih =>
    have hstep : valuePass (l :: rest) st = valuePass rest (valueStep st l) := rfl
    rw [hstep, ih (valueStep st l), valueStep_lookup, valueStep_time]
    cases hL : List.lookup sid st.signals with
    | none => rfl
    | some info =>
      cases info
      simp [collectChangesFor, List.append_assoc]

/-! ## Header pass lemmas -/

theorem headerSteps_values_empty (lines : List String) (st : HState)
    (h : ∀ sid info, List.lookup sid st.signals = some info → info.values = []) :
    ∀ sid info, List.lookup sid (lines.foldl headerStep st).signals = some info →
      info.values = [] := by
  induction lines generalizing st with
  | nil => exact h
  | cons l rest ih =>
    refine ih (headerStep st l) ?_
    intro sid info hl
    revert hl
    simp only [headerStep]
    repeat' split
    all_goals intro hl
    all_goals
      first
      | exact h _ _ hl
      | (rw [lookup_dictInsert] at hl
         split at hl
         · cases hl; rfl
         · exact h _ _ hl)

theorem headerPass_values_empty (lines : List String) :
    ∀ sid info, List.lookup sid (headerPass lines).signals = some info → info.values = [] :=
  headerSteps_values_empty lines ⟨[], []⟩ (by intro sid info h; simp at h)

theorem headerStep_not_declares {sid l : String} (h : declaresVar sid l = false) (st : HState) :
    List.lookup sid (headerStep st l).signals = List.lookup sid st.signals := by
  simp only [headerStep]
  by_cases h1 : pyStartsWith (pyStrip l) "$scope" = true
  · rw [if_pos h1]
    cases pySplit (pyStrip l) with
    | nil => rfl
    | cons a tl0 =>
      cases tl0 with
      | nil => rfl
      | cons b tl1 =>
        cases tl1 with
        | nil => rfl
        | cons c tl2 => rfl
  · rw [if_neg h1]
    by_cases h2 : pyStartsWith (pyStrip l) "$upscope" = true
    · rw [if_pos h2]
    · rw [if_neg h2]
      by_cases h3 : pyStartsWith (pyStrip l) "$var" = true
      · rw [if_pos h3]
        cases hvm : varMatch (pyStrip l) with
        | none => rfl
        | some trip =>
          obtain ⟨w, sid', nm⟩ := trip
          dsimp only
          have hne : sid ≠ sid' := by
            unfold declaresVar at h
            rw [h3, hvm] at h
            simp at h
            exact fun hc => h hc.symm
          exact lookup_dictInsert_ne hne _ _
      · rw [if_neg h3]

theorem headerStep_vardecl {l : String} {w : Nat} {sid nm : String}
    (hsw : pyStartsWith (pyStrip l) "$var" = true)
    (hvm : varMatch (pyStrip l) = some (w, sid, nm)) (st : HState) :
    headerStep st l =
      { st with
        signals := dictInsert sid ⟨joinDots (st.stack ++ [nm]), w, []⟩ st.signals } := by
  obtain ⟨rest, hdata⟩ := startsWith_shape hsw
  rw [data_vardecl] at hdata
  have h1 : pyStartsWith (pyStrip l) "$scope" = false := by
    unfold pyStartsWith
    rw [data_scope, hdata]
    rfl
  have h2 : pyStartsWith (pyStrip l) "$upscope" = false := by
    unfold pyStartsWith
    rw [data_upscope, hdata]
    rfl
  simp only [headerStep, h1, h2, hsw, hvm]
  simp

theorem headerSteps_preserve (sid : String) (lines : List String) (st : HState)
    (h : ∀ l ∈ lines, declaresVar sid l = false) :
    List.lookup sid (lines.foldl headerStep st).signals = List.lookup sid st.signals := by
  induction lines generalizing st with
  | nil => rfl
  | cons l rs ih =>
    rw [List.foldl_cons, ih (headerStep st l) (fun l' hm => h l' (List.mem_cons_of_mem _ hm)),
      headerStep_not_declares (h l (List.mem_cons_self _ _))]

theorem headerPass_append_decl (pre : List String) (l : String) (post : List String)
    {w : Nat} {sid nm : String}
    (hsw : pyStartsWith (pyStrip l) "$var" = true)
    (hvm : varMatch (pyStrip l) = some (w, sid, nm))
    (hpost : ∀ l' ∈ post, declaresVar sid l' = false) :
    List.lookup sid (headerPass (pre ++ l :: post)).signals =
      some ⟨joinDots ((pre.foldl headerStep ⟨[], []⟩).stack ++ [nm]), w, []⟩ := by
  unfold headerPass
  rw [List.foldl_append, List.foldl_cons, headerStep_vardecl hsw hvm,
    headerSteps_preserve sid post _ hpost]
  exact lookup_dictInsert_self _ _ _

/-! ## Ordering lemmas for the collected timeline -/

theorem timesNonDecr_cons {a : Int × String} {l : List (Int × String)}
    (hl : timesNonDecr l = true) (hb : ∀ r ∈ l, a.1 ≤ r.1) : timesNonDecr (a :: l) = true := by
  cases l with
  | nil => rfl
  | cons b rest =>
    simp only [timesNonDecr]
    rw [hl]
    simp [hb b (List.mem_cons_self _ _)]

theorem lineAppends_marker {sid : String} {tm : Int} {l : String}
    (h : pyStartsWith (pyStrip l) "#" = true) : lineAppends sid tm l = [] := by
  simp [lineAppends, h]

theorem lineAppends_shape (sid : String) (tm : Int) (l : String) :
    lineAppends sid tm l = [] ∨ ∃ v, lineAppends sid tm l = [(tm, v)] := by
  simp only [lineAppends]
  repeat' split
  all_goals simp

theorem timeAfter_marker {l : String} {t : Int} (h : pyStartsWith (pyStrip l) "#" = true)
    (hm : pyInt (strTail (pyStrip l)) = some t) (tm : Int) : timeAfter tm l = t := by
  simp [timeAfter, h, hm]

theorem timeAfter_skip {l : String}
    (h : pyStartsWith (pyStrip l) "#" = false ∨ pyInt (strTail (pyStrip l)) = none)
    (tm : Int) : timeAfter tm l = tm := by
  rcases h with h | h
  · simp [timeAfter, h]
  · by_cases h2 : pyStartsWith (pyStrip l) "#" = true
    · simp [timeAfter, h2, h]
    · simp [timeAfter, h2]

theorem markersOf_cons_marker {l : String} {t : Int} (h : pyStartsWith (pyStrip l) "#" = true)
    (hm : pyInt (strTail (pyStrip l)) = some t) (rest : List String) :
    markersOf (l :: rest) = t :: markersOf rest := by
  simp [markersOf, List.filterMap_cons, h, hm]

theorem markersOf_cons_skip {l : String}
    (h : pyStartsWith (pyStrip l) "#" = false ∨ pyInt (strTail (pyStrip l)) = none)
    (rest : List String) : markersOf (l :: rest) = markersOf rest := by
  rcases h with h | h
  · simp [markersOf, List.filterMap_cons, h]
  · by_cases h2 : pyStartsWith (pyStrip l) "#" = true
    · simp [markersOf, List.filterMap_cons, h2, h]
    · simp [markersOf, List.filterMap_cons, h2]

theorem collect_bound_sorted (sid : String) (lines : List String) (tm : Int)
    (hchain : List.Chain' (· ≤ ·) (tm :: markersOf lines)) :
    timesNonDecr (collectChangesFor sid tm lines) = true ∧
      ∀ r ∈ collectChangesFor sid tm lines, tm ≤ r.1 := by
  induction lines generalizing tm with
  | nil =>
    refine ⟨rfl, ?_⟩
    intro r hr
    simp [collectChangesFor] at hr
  | cons l rest ih =>
    by_cases h : pyStartsWith (pyStrip l) "#" = true
    · cases hm : pyInt (strTail (pyStrip l)) with
      | some t =>
        rw [markersOf_cons_marker h hm] at hchain
        obtain ⟨h1, h2⟩ := List.chain'_cons.mp hchain
        obtain ⟨hs, hb⟩ := ih t h2
        constructor
        · rw [collectChangesFor, lineAppends_marker h, timeAfter_marker h hm]
          simpa using hs
        · intro r hr
          rw [collectChangesFor, lineAppends_marker h, timeAfter_marker h hm] at hr
          simp only [List.nil_append] at hr
          exact le_trans h1 (hb r hr)
      | none =>
        rw [markersOf_cons_skip (Or.inr hm)] at hchain
        obtain ⟨hs, hb⟩ := ih tm hchain
        constructor
        · rw [collectChangesFor, lineAppends_marker h, timeAfter_skip (Or.inr hm)]
          simpa using hs
        · intro r hr
          rw [collectChangesFor, lineAppends_marker h, timeAfter_skip (Or.inr hm)] at hr
          simp only [List.nil_append] at hr
          exact hb r hr
    · have h' : pyStartsWith (pyStrip l) "#" = false := by
        cases hx : pyStartsWith (pyStrip l) "#"
        · rfl
        · exact absurd hx h
      rw [markersOf_cons_skip (Or.inl h')] at hchain
      obtain ⟨hs, hb⟩ := ih tm hchain
      rw [collectChangesFor, timeAfter_skip (Or.inl h')]
      rcases lineAppends_shape sid tm l with hsh | ⟨v, hsh⟩
      · rw [hsh, List.nil_append]
        exact ⟨hs, hb⟩
      · rw [hsh, List.singleton_append]
        constructor
        · exact timesNonDecr_cons hs (by intro r hr; exact hb r hr)
        · intro r hr
          rcases List.mem_cons.mp hr with hr | hr
          · rw [hr]
          · exact hb r hr

/-! ## Branch-resolution helpers for the value steps -/

theorem ne_true_of_eq_false {b : Bool} (h : b = false) : ¬b = true := by
  rw [h]
  exact Bool.false_ne_true

theorem startsWith_mono {s pre₁ pre₂ : String}
    (hps : pre₁.data <+: pre₂.data) (h : pyStartsWith s pre₂ = true) :
    pyStartsWith s pre₁ = true := by
  unfold pyStartsWith at h ⊢
  rw [List.isPrefixOf_iff_prefix] at h ⊢
  exact hps.trans h

theorem startsWith_false_of_head {s : String} {c : Char} {cs : List Char}
    (hd : s.data = c :: cs) {pre : String} {p : Char} {ps : List Char}
    (hpre : pre.data = p :: ps) (hne : (p == c) = false) : pyStartsWith s pre = false := by
  unfold pyStartsWith
  rw [hpre, hd]
  simp [List.isPrefixOf, hne]

theorem ne_empty_of_head {s : String} {c : Char} {cs : List Char} (hd : s.data = c :: cs) :
    s ≠ "" := by
  intro hc
  rw [hc, data_nil] at hd
  exact List.noConfusion hd

theorem startsWith_length {s pre : String} (h : pyStartsWith s pre = true) :
    pre.data.length ≤ s.data.length := by
  obtain ⟨rest, hr⟩ := startsWith_shape h
  rw [hr]
  simp

/-- The scalar fallback equation: any stripped line of length at least 2 that
starts with none of `#`, `$`, `b`, `B` is treated as a scalar value change. -/
theorem valueStep_scalar_eq (st : VState) (l : String)
    (h1 : pyStartsWith (pyStrip l) "#" = false)
    (h2 : pyStartsWith (pyStrip l) "$" = false)
    (h3 : pyStartsWith (pyStrip l) "b" = false)
    (h4 : pyStartsWith (pyStrip l) "B" = false)
    (h5 : 2 ≤ strLen (pyStrip l)) :
    valueStep st l = appendVal (strTail (pyStrip l)) (st.time, strHead1 (pyStrip l)) st := by
  have hne : pyStrip l ≠ "" := by
    intro hc
    rw [hc] at h5
    simp [strLen, data_nil] at h5
  have hdv : pyStartsWith (pyStrip l) "$dumpvars" = false := by
    cases hx : pyStartsWith (pyStrip l) "$dumpvars" with
    | false => rfl
    | true => exact absurd (startsWith_mono (by decide) hx) (ne_true_of_eq_false h2)
  have hend : pyStartsWith (pyStrip l) "$end" = false := by
    cases hx : pyStartsWith (pyStrip l) "$end" with
    | false => rfl
    | true => exact absurd (startsWith_mono (by decide) hx) (ne_true_of_eq_false h2)
  have h6 : (pyStartsWith (pyStrip l) "b" || pyStartsWith (pyStrip l) "B") = false := by
    rw [h3, h4]
    rfl
  simp only [valueStep]
  rw [if_neg (ne_true_of_eq_false h1), if_neg (ne_true_of_eq_false hdv),
    if_neg (ne_true_of_eq_false hend), if_neg hne, if_neg (ne_true_of_eq_false h2),
    if_neg (ne_true_of_eq_false h6), if_pos h5]

/-- The vector-change equation: a stripped line starting with `b` or `B` that
splits into at least two tokens appends the dumped bit string for the second
token's identifier, with no reference to the declared width. -/
theorem valueStep_vector_eq (st : VState) (l : String) (p0 p1 : String) (tl : List String)
    (hb : (pyStartsWith (pyStrip l) "b" || pyStartsWith (pyStrip l) "B") = true)
    (hsp : pySplit (pyStrip l) = p0 :: p1 :: tl) :
    valueStep st l = appendVal p1 (st.time, strTail p0) st := by
  have hd : ∃ c cs, (pyStrip l).data = c :: cs ∧ (c = 'b' ∨ c = 'B') := by
    have hb2 : pyStartsWith (pyStrip l) "b" = true ∨ pyStartsWith (pyStrip l) "B" = true := by
      simpa using hb
    rcases hb2 with h | h
    · obtain ⟨rest, hr⟩ := startsWith_shape h
      rw [data_low_b] at hr
      exact ⟨'b', rest, hr, Or.inl rfl⟩
    · obtain ⟨rest, hr⟩ := startsWith_shape h
      rw [data_cap_B] at hr
      exact ⟨'B', rest, hr, Or.inr rfl⟩
  obtain ⟨c, cs, hd, hc⟩ := hd
  have h1 : pyStartsWith (pyStrip l) "#" = false := by
    rcases hc with hc | hc <;> subst hc <;> exact startsWith_false_of_head hd data_hash (by decide)
  have hdv : pyStartsWith (pyStrip l) "$dumpvars" = false := by
    rcases hc with hc | hc <;> subst hc <;>
      exact startsWith_false_of_head hd data_dumpvars (by decide)
  have hend : pyStartsWith (pyStrip l) "$end" = false := by
    rcases hc with hc | hc <;> subst hc <;> exact startsWith_false_of_head hd data_enddv (by decide)
  have hdol : pyStartsWith (pyStrip l) "$" = false := by
    rcases hc with hc | hc <;> subst hc <;> exact startsWith_false_of_head hd data_dollar (by decide)
  have hne : pyStrip l ≠ "" := ne_empty_of_head hd
  simp only [valueStep]
  rw [if_neg (ne_true_of_eq_false h1), if_neg (ne_true_of_eq_false hdv),
    if_neg (ne_true_of_eq_false hend), if_neg hne, if_neg (ne_true_of_eq_false hdol),
    if_pos hb, hsp]

theorem statesStep_scalar_eq (ps : PState) (l : String)
    (h1 : pyStartsWith (pyStrip l) "#" = false)
    (h2 : pyStartsWith (pyStrip l) "$" = false)
    (h3 : pyStartsWith (pyStrip l) "b" = false)
    (h4 : pyStartsWith (pyStrip l) "B" = false)
    (h5 : 2 ≤ strLen (pyStrip l)) :
    statesValueStep ps l = statesAppend (strTail (pyStrip l)) (ps.time, strHead1 (pyStrip l)) ps := by
  have hne : pyStrip l ≠ "" := by
    intro hc
    rw [hc] at h5
    simp [strLen, data_nil] at h5
  have hdv : pyStartsWith (pyStrip l) "$dumpvars" = false := by
    cases hx : pyStartsWith (pyStrip l) "$dumpvars" with
    | false => rfl
    | true => exact absurd (startsWith_mono (by decide) hx) (ne_true_of_eq_false h2)
  have hend : pyStartsWith (pyStrip l) "$end" = false := by
    cases hx : pyStartsWith (pyStrip l) "$end" with
    | false => rfl
    | true => exact absurd (startsWith_mono (by decide) hx) (ne_true_of_eq_false h2)
  have h6 : (pyStartsWith (pyStrip l) "b" || pyStartsWith (pyStrip l) "B") = false := by
    rw [h3, h4]
    rfl
  simp only [statesValueStep]
  rw [if_neg (ne_true_of_eq_false h1), if_neg (ne_true_of_eq_false hdv),
    if_neg (ne_true_of_eq_false hend), if_neg hne, if_neg (ne_true_of_eq_false h2),
    if_neg (ne_true_of_eq_false h6), if_pos h5]

theorem statesStep_vector_eq (ps : PState) (l : String) (p0 p1 : String) (tl : List String)
    (hb : (pyStartsWith (pyStrip l) "b" || pyStartsWith (pyStrip l) "B") = true)
    (hsp : pySplit (pyStrip l) = p0 :: p1 :: tl) :
    statesValueStep ps l = statesAppend p1 (ps.time, strTail p0) ps := by
  have hd : ∃ c cs, (pyStrip l).data = c :: cs ∧ (c = 'b' ∨ c = 'B') := by
    have hb2 : pyStartsWith (pyStrip l) "b" = true ∨ pyStartsWith (pyStrip l) "B" = true := by
      simpa using hb
    rcases hb2 with h | h
    · obtain ⟨rest, hr⟩ := startsWith_shape h
      rw [data_low_b] at hr
      exact ⟨'b', rest, hr, Or.inl rfl⟩
    · obtain ⟨rest, hr⟩ := startsWith_shape h
      rw [data_cap_B] at hr
      exact ⟨'B', rest, hr, Or.inr rfl⟩
  obtain ⟨c, cs, hd, hc⟩ := hd
  have h1 : pyStartsWith (pyStrip l) "#" = false := by
    rcases hc with hc | hc <;> subst hc <;> exact startsWith_false_of_head hd data_hash (by decide)
  have hdv : pyStartsWith (pyStrip l) "$dumpvars" = false := by
    rcases hc with hc | hc <;> subst hc <;>
      exact startsWith_false_of_head hd data_dumpvars (by decide)
  have hend : pyStartsWith (pyStrip l) "$end" = false := by
    rcases hc with hc | hc <;> subst hc <;> exact startsWith_false_of_head hd data_enddv (by decide)
  have hdol : pyStartsWith (pyStrip l) "$" = false := by
    rcases hc with hc | hc <;> subst hc <;> exact startsWith_false_of_head hd data_dollar (by decide)
  have hne : pyStrip l ≠ "" := ne_empty_of_head hd
  simp only [statesValueStep]
  rw [if_neg (ne_true_of_eq_false h1), if_neg (ne_true_of_eq_false hdv),
    if_neg (ne_true_of_eq_false hend), if_neg hne, if_neg (ne_true_of_eq_false hdol),
    if_pos hb, hsp]

/-! ## Step and fold lemmas for the check_x_states value loop -/

theorem map_vals_append_nil (o : Option (List (Int × String))) :
    o.map (fun vals => vals ++ []) = o := by
  cases o <;> simp

theorem statesStep_time (ps : PState) (l : String) :
    (statesValueStep ps l).time = timeAfter ps.time l := by
  simp only [statesValueStep, timeAfter]
  repeat' split
  all_goals simp_all [statesAppend]

theorem statesStep_lookup (ps : PState) (sid : String) (l : String) :
    List.lookup sid (statesValueStep ps l).values =
      (List.lookup sid ps.values).map (fun vals => vals ++ lineAppends sid ps.time l) := by
  have hself : ∀ e : Int × String,
      List.lookup sid (statesAppend sid e ps).values =
        (List.lookup sid ps.values).map (fun vals => vals ++ [e]) := by
    intro e
    exact lookup_dictUpdate_self sid _ ps.values
  have hne : ∀ (j : String) (e : Int × String), j ≠ sid →
      List.lookup sid (statesAppend j e ps).values = List.lookup sid ps.values := by
    intro j e hj
    exact lookup_dictUpdate_ne (fun hc => hj hc.symm) _ ps.values
  simp only [statesValueStep, lineAppends]
  by_cases h1 : pyStartsWith (pyStrip l) "#" = true
  · rw [if_pos h1, if_pos h1]
    cases hm : pyInt (strTail (pyStrip l)) <;> simp only [hm, map_vals_append_nil]
  · rw [if_neg h1, if_neg h1]
    by_cases h2 : pyStartsWith (pyStrip l) "$dumpvars" = true
    · rw [if_pos h2, if_pos h2]
      exact (map_vals_append_nil _).symm
    · rw [if_neg h2, if_neg h2]
      by_cases h3 : pyStartsWith (pyStrip l) "$end" = true
      · rw [if_pos h3, if_pos h3]
        cases hdv : ps.inDumpvars <;> simp [hdv, map_vals_append_nil]
      · rw [if_neg h3, if_neg h3]
        by_cases h4 : pyStrip l = ""
        · rw [if_pos h4, if_pos h4]
          exact (map_vals_append_nil _).symm
        · rw [if_neg h4, if_neg h4]
          by_cases h5 : pyStartsWith (pyStrip l) "$" = true
          · rw [if_pos h5, if_pos h5]
            exact (map_vals_append_nil _).symm
          · rw [if_neg h5, if_neg h5]
            by_cases h6 : (pyStartsWith (pyStrip l) "b" || pyStartsWith (pyStrip l) "B") = true
            · rw [if_pos h6, if_pos h6]
              cases hsp : pySplit (pyStrip l) with
              | nil => simp only [map_vals_append_nil]
              | cons p0 tl0 =>
                cases tl0 with
                | nil => simp only [map_vals_append_nil]
                | cons p1 tl1 =>
                  dsimp only
                  by_cases hp : p1 = sid
                  · subst hp
                    rw [if_pos rfl]
                    exact hself _
                  · rw [if_neg hp, hne p1 _ hp]
                    exact (map_vals_append_nil _).symm
            · rw [if_neg h6, if_neg h6]
              by_cases h7 : 2 ≤ strLen (pyStrip l)
              · rw [if_pos h7, if_pos h7]
                by_cases hp : strTail (pyStrip l) = sid
                · rw [hp, if_pos rfl]
                  exact hself _
                · rw [if_neg hp, hne _ _ hp]
                  exact (map_vals_append_nil _).symm
              · rw [if_neg h7, if_neg h7]
                exact (map_vals_append_nil _).symm

theorem statesValuePass_lookup (lines : List String) (ps : PState) (sid : String) :
    List.lookup sid (lines.foldl statesValueStep ps).values =
      (List.lookup sid ps.values).map
        (fun vals => vals ++ collectChangesFor sid ps.time lines) := by
  induction lines generalizing ps with
  | nil =>
    simp only [List.foldl_nil, collectChangesFor]
    exact (map_vals_append_nil _).symm
  | cons l rest ih =>
    have hstep : (l :: rest).foldl statesValueStep ps =
        rest.foldl statesValueStep (statesValueStep ps l) := rfl
    rw [hstep, ih (statesValueStep ps l), statesStep_lookup, statesStep_time]
    cases hL : List.lookup sid ps.values with
    | none => rfl
    | some vals => simp [collectChangesFor, List.append_assoc]

/-! ## Token-count bound for short lines -/

theorem pySplitAux_length (l : List Char) (acc : List Char) :
    (pySplitAux l acc).length ≤ l.length + (if acc.isEmpty then 0 else 1) := by
  induction l generalizing acc with
  | nil =>
    simp only [pySplitAux]
    split <;> simp_all
  | cons c cs ih =>
    simp only [pySplitAux]
    by_cases hw : c.isWhitespace = true
    · rw [if_pos hw]
      by_cases ha : acc.isEmpty = true
      · rw [if_pos ha, if_pos ha]
        have := ih ([] : List Char)
        simp at this
        simp
        omega
      · rw [if_neg ha, if_neg (by simp [ha])]
        have := ih ([] : List Char)
        simp at this
        simp
        omega
    · rw [if_neg hw]
      have := ih (c :: acc)
      simp at this
      by_cases ha : acc.isEmpty = true
      · rw [if_pos ha]
        simp
        omega
      · rw [if_neg (by simp [ha])]
        simp
        omega

theorem pySplit_length_le (s : String) : (pySplit s).length ≤ s.data.length := by
  have := pySplitAux_length s.data []
  simpa using this

/-! ## Short lines leave the value-loop state unchanged (both scripts) -/

theorem strTail_short {l : String} (h : strLen (pyStrip l) < 2) : strTail (pyStrip l) = "" := by
  unfold strLen at h
  unfold strTail
  cases hd : (pyStrip l).data with
  | nil => rfl
  | cons c cs =>
    rw [hd] at h
    cases cs with
    | nil => rfl
    | cons d ds =>
      exfalso
      rw [List.length_cons, List.length_cons] at h
      omega

theorem valueStep_short (st : VState) (l : String) (h : strLen (pyStrip l) < 2) :
    valueStep st l = st := by
  simp only [valueStep]
  by_cases h1 : pyStartsWith (pyStrip l) "#" = true
  · rw [if_pos h1, strTail_short h]
    exact rfl
  · rw [if_neg h1]
    by_cases h2 : pyStartsWith (pyStrip l) "$dumpvars" = true
    · exfalso
      have hle := startsWith_length h2
      rw [data_dumpvars] at hle
      unfold strLen at h
      simp only [List.length_cons, List.length_nil] at hle
      omega
    · rw [if_neg h2]
      by_cases h3 : pyStartsWith (pyStrip l) "$end" = true
      · exfalso
        have hle := startsWith_length h3
        rw [data_enddv] at hle
        unfold strLen at h
        simp only [List.length_cons, List.length_nil] at hle
        omega
      · rw [if_neg h3]
        by_cases h4 : pyStrip l = ""
        · rw [if_pos h4]
        · rw [if_neg h4]
          by_cases h5 : pyStartsWith (pyStrip l) "$" = true
          · rw [if_pos h5]
          · rw [if_neg h5]
            by_cases h6 : (pyStartsWith (pyStrip l) "b" || pyStartsWith (pyStrip l) "B") = true
            · rw [if_pos h6]
              cases hsp : pySplit (pyStrip l) with
              | nil => rfl
              | cons p0 tl0 =>
                cases tl0 with
                | nil => rfl
                | cons p1 tl1 =>
                  exfalso
                  have hle := pySplit_length_le (pyStrip l)
                  rw [hsp] at hle
                  unfold strLen at h
                  simp only [List.length_cons] at hle
                  omega
            · rw [if_neg h6]
              have h7 : ¬2 ≤ strLen (pyStrip l) := by omega
              rw [if_neg h7]

theorem statesStep_short (ps : PState) (l : String) (h : strLen (pyStrip l) < 2) :
    statesValueStep ps l = ps := by
  simp only [statesValueStep]
  by_cases h1 : pyStartsWith (pyStrip l) "#" = true
  · rw [if_pos h1, strTail_short h]
    exact rfl
  · rw [if_neg h1]
    by_cases h2 : pyStartsWith (pyStrip l) "$dumpvars" = true
    · exfalso
      have hle := startsWith_length h2
      rw [data_dumpvars] at hle
      unfold strLen at h
      simp only [List.length_cons, List.length_nil] at hle
      omega
    · rw [if_neg h2]
      by_cases h3 : pyStartsWith (pyStrip l) "$end" = true
      · exfalso
        have hle := startsWith_length h3
        rw [data_enddv] at hle
        unfold strLen at h
        simp only [List.length_cons, List.length_nil] at hle
        omega
      · rw [if_neg h3]
        by_cases h4 : pyStrip l = ""
        · rw [if_pos h4]
        · rw [if_neg h4]
          by_cases h5 : pyStartsWith (pyStrip l) "$" = true
          · rw [if_pos h5]
          · rw [if_neg h5]
            by_cases h6 : (pyStartsWith (pyStrip l) "b" || pyStartsWith (pyStrip l) "B") = true
            · rw [if_pos h6]
              cases hsp : pySplit (pyStrip l) with
              | nil => rfl
              | cons p0 tl0 =>
                cases tl0 with
                | nil => rfl
                | cons p1 tl1 =>
                  exfalso
                  have hle := pySplit_length_le (pyStrip l)
                  rw [hsp] at hle
                  unfold strLen at h
                  simp only [List.length_cons] at hle
                  omega
            · rw [if_neg h6]
              have h7 : ¬2 ≤ strLen (pyStrip l) := by omega
              rw [if_neg h7]

/-! ## Preservation through the check_x_states header loop -/

theorem statesVarAction_preserve (sid : String) (ms : List (String × String)) :
    ∀ (start : List (String × String) × List (String × List (Int × String))),
      (∀ m ∈ ms, m.1 ≠ sid) →
      List.lookup sid (ms.foldl statesVarAction start).1 = List.lookup sid start.1 ∧
      List.lookup sid (ms.foldl statesVarAction start).2 = List.lookup sid start.2 := by
  induction ms with
  | nil =>
    intro start h
    exact ⟨rfl, rfl⟩
  | cons m rest ih =>
    intro start h
    have hm : sid ≠ m.1 := fun hc => (h m (List.mem_cons_self _ _)) hc.symm
    obtain ⟨ih1, ih2⟩ :=
      ih (statesVarAction start m) (fun m' hm' => h m' (List.mem_cons_of_mem _ hm'))
    rw [List.foldl_cons]
    exact ⟨ih1.trans (lookup_dictInsert_ne hm _ _), ih2.trans (lookup_dictInsert_ne hm _ _)⟩

/-! ## The classifier scans as List.find? -/

theorem findXScan_eq_find (changes : List (Int × String)) (t0 : Int) :
    findXScan changes t0 = changes.find? (fun r => decide (t0 ≤ r.1) && containsXX r.2) := by
  induction changes with
  | nil => rfl
  | cons r rest ih =>
    obtain ⟨tm, v⟩ := r
    have hkey : (decide (t0 ≤ tm) && containsXX v) = true ↔
        (t0 ≤ tm ∧ containsXLower v = true) := by
      rw [← containsXLower_eq]
      simp
    by_cases h : t0 ≤ tm ∧ containsXLower v = true
    · rw [@List.find?_cons_of_pos _ (fun r : Int × String => decide (t0 ≤ r.1) && containsXX r.2)
        (tm, v) rest (hkey.mpr h)]
      simp only [findXScan, if_pos h]
    · rw [@List.find?_cons_of_neg _ (fun r : Int × String => decide (t0 ≤ r.1) && containsXX r.2)
        (tm, v) rest (fun hx => h (hkey.mp hx))]
      simp only [findXScan, if_neg h, ih]

theorem firstXPost_eq_find (changes : List (Int × String)) (t0 : Int) :
    firstXPost changes t0 = changes.find? (fun r => decide (t0 < r.1) && containsXX r.2) := by
  induction changes with
  | nil => rfl
  | cons r rest ih =>
    obtain ⟨tm, v⟩ := r
    have hkey : (decide (t0 < tm) && containsXX v) = true ↔
        (t0 < tm ∧ containsXLower v = true) := by
      rw [← containsXLower_eq]
      simp
    by_cases h : t0 < tm ∧ containsXLower v = true
    · rw [@List.find?_cons_of_pos _ (fun r : Int × String => decide (t0 < r.1) && containsXX r.2)
        (tm, v) rest (hkey.mpr h)]
      simp only [firstXPost, if_pos h]
    · rw [@List.find?_cons_of_neg _ (fun r : Int × String => decide (t0 < r.1) && containsXX r.2)
        (tm, v) rest (fun hx => h (hkey.mp hx))]
      simp only [firstXPost, if_neg h, ih]

theorem firstAfterPost_eq_find (changes : List (Int × String)) (t0 : Int) :
    firstAfterPost changes t0 =
      (changes.find? (fun r => decide (t0 < r.1))).map Prod.snd := by
  induction changes with
  | nil => rfl
  | cons r rest ih =>
    obtain ⟨tm, v⟩ := r
    by_cases h : t0 < tm
    · rw [List.find?_cons_of_pos _ (by simpa using h)]
      simp only [firstAfterPost, if_pos h, Option.map_some]
      rfl
    · rw [List.find?_cons_of_neg _ (by simpa using h)]
      simp only [firstAfterPost, if_neg h, ih]

/-! ## Aggregation lemmas -/

theorem detailedAllPass_from_false {α : Type} (results : List (Option (List α))) :
    results.foldl (fun acc r =>
      match r with
      | none => false
      | some l => if l.isEmpty then acc else false) false = false := by
  induction results with
  | nil => rfl
  | cons r rest ih =>
    rw [List.foldl_cons]
    cases r with
    | none => exact ih
    | some l =>
      dsimp only
      rw [ite_self]
      exact ih

theorem detailedAllPass_iff {α : Type} (results : List (Option (List α))) :
    detailedAllPass results = true ↔ ∀ r ∈ results, detailedStatus r = TStatus.pass := by
  unfold detailedAllPass
  induction results with
  | nil => simp
  | cons r rest ih =>
    rw [List.foldl_cons]
    cases r with
    | none =>
      rw [detailedAllPass_from_false]
      simp [detailedStatus]
    | some l =>
      cases l with
      | nil =>
        simp only [List.isEmpty_nil, eq_self_iff_true, if_true]
        rw [ih]
        simp [detailedStatus]
      | cons a as =>
        simp only [List.isEmpty_cons, Bool.false_eq_true, if_false]
        rw [detailedAllPass_from_false]
        simp [detailedStatus]

theorem statesTotal_shift {α : Type} (results : List (Option (List α))) (n : Nat) :
    results.foldl (fun acc r =>
      match r with
      | some l => if l.isEmpty then acc else acc + l.length
      | none => acc) n = n + statesTotal results := by
  induction results generalizing n with
  | nil => simp [statesTotal]
  | cons r rest ih =>
    unfold statesTotal
    rw [List.foldl_cons, List.foldl_cons, ih, ih]
    cases r with
    | none => simp
    | some l =>
      cases hli : l.isEmpty with
      | true => simp [hli]
      | false =>
        simp only [hli, Bool.false_eq_true, if_false]
        omega

theorem statesTotal_zero_iff {α : Type} (results : List (Option (List α))) :
    statesTotal results = 0 ↔ ∀ r ∈ results, ∀ l, r = some l → l = [] := by
  induction results with
  | nil => simp [statesTotal]
  | cons r rest ih =>
    have hcons : statesTotal (r :: rest) =
        (match r with
          | some l => if l.isEmpty then 0 else 0 + l.length
          | none => 0) + statesTotal rest := by
      unfold statesTotal
      rw [List.foldl_cons, statesTotal_shift]
      rfl
    rw [hcons]
    cases r with
    | none => simp [ih]
    | some l =>
      cases l with
      | nil => simp [ih]
      | cons a as =>
        simp only [List.isEmpty_cons, Bool.false_eq_true, if_false]
        constructor
        · intro h
          exfalso
          simp [List.length_cons] at h
        · intro h
          exfalso
          have := h (some (a :: as)) (List.mem_cons_self _ _) (a :: as) rfl
          exact List.noConfusion this

/-! ## Claim C1 -/

/-- C1 counterexample: the claim says a record at exactly the reset-release
time is treated as pre-release and never reported, but `find_x_after_reset`
compares with `>=` (`time >= reset_release_time`), so its scan reports the
record `(300000, "x")` at exactly the threshold 300000, while the claim's
strict-`>` rule selects no record on this input. -/
theorem C1_boundary_cex :
    findXScan [((300000 : Int), "x")] 300000 = some (300000, "x") ∧
    List.find? (fun r => decide ((300000 : Int) < r.1) && containsXX r.2)
      [((300000 : Int), "x")] = none := by
  constructor
  · decide
  · decide

/-- C1 (amended): both scripts retain only the first qualifying record per
signal, scanning in record order (equal to timestamp order when markers are
non-decreasing, cf. C4): `find_x_after_reset` (check_x_states.py) reports the
first record with timestamp ≥ `reset_release_time` containing an
unknown-state character 'x'/'X' — a record at exactly the threshold IS
reported — while `check_test` (check_x_detailed.py) uses the strict
comparison, reporting the first record with timestamp > `RESET_RELEASE`
containing 'x'/'X', and none when no such record exists. -/
theorem C1_first_x_after_reset (changes : List (Int × String)) (t0 : Int) :
    findXScan changes t0 =
      changes.find? (fun r => decide (t0 ≤ r.1) && containsXX r.2) ∧
    firstXPost changes t0 =
      changes.find? (fun r => decide (t0 < r.1) && containsXX r.2) :=
  ⟨findXScan_eq_find changes t0, firstXPost_eq_find changes t0⟩

/-! ## Claim C2 -/

/-- C2 counterexample: a batch whose single test errored (result `None`) makes
`check_x_states.main` return exit code 0 — no X entries were counted — even
though that test's status is ERROR, contradicting "exit 0 iff every status is
Pass". -/
theorem C2_error_exit_cex :
    statesExit [(none : Option (List (String × Int × String)))] = 0 ∧
    statesStatus (none : Option (List (String × Int × String))) ≠ TStatus.pass := by
  constructor
  · rfl
  · decide

/-- C2 (amended): `check_x_detailed.main` exits 0 iff every test's status is
Pass; `check_x_states.main` exits 0 iff no test reports an X entry, so a test
with status ERROR alone does not make the exit code non-zero there. -/
theorem C2_exit_codes {α : Type} (results : List (Option (List α))) :
    (detailedExit results = 0 ↔ ∀ r ∈ results, detailedStatus r = TStatus.pass) ∧
    (statesExit results = 0 ↔ ∀ r ∈ results, ∀ l, r = some l → l = []) := by
  constructor
  · unfold detailedExit
    cases hc : detailedAllPass results with
    | true =>
      rw [if_pos rfl]
      exact iff_of_true rfl ((detailedAllPass_iff results).mp hc)
    | false =>
      rw [if_neg Bool.false_ne_true]
      refine iff_of_false (by omega) (fun hr => ?_)
      rw [(detailedAllPass_iff results).mpr hr] at hc
      exact Bool.noConfusion hc
  · unfold statesExit
    by_cases h : statesTotal results = 0
    · rw [if_pos h]
      exact iff_of_true rfl ((statesTotal_zero_iff results).mp h)
    · rw [if_neg h]
      exact iff_of_false (by omega) (fun hr => h ((statesTotal_zero_iff results).mpr hr))

/-- C2 witness: a batch with one passing test exits 0. -/
theorem C2_exit_codes_wit :
    detailedExit [(some [] : Option (List (String × Int)))] = 0 :=
  (C2_exit_codes [(some [] : Option (List (String × Int)))]).1.mpr (by decide)

/-! ## Claim C3 -/

/-- C3 counterexample: a signal whose earliest record value is "z": the claim
says hasXAtInit should be true ("z" is in the claim's character set
x/X/z/Z), but the code only tests `'x' in value.lower()` and reports false. -/
theorem C3_z_cex :
    hasXInitF [((0 : Int), "z")] = false ∧ hasUnknownXZ "z" = true := by
  constructor
  · decide
  · decide

/-- C3 (amended): for a signal with at least one record, hasXAtInit is true
iff the earliest record's value contains 'x' or 'X' (case-insensitively);
'z'/'Z' are not detected. -/
theorem C3_has_x_init (t : Int) (v : String) (rest : List (Int × String)) :
    hasXInitF ((t, v) :: rest) = containsXX v := by
  simp only [hasXInitF]
  by_cases h : v = ""
  · subst h
    rw [if_pos rfl]
    rfl
  · rw [if_neg h, containsXLower_eq]

/-! ## Claim C4 -/

/-- C4 counterexample: neither parser guards against time regression — the
later marker `#50` after `#100` is simply accepted (`current_time = int(...)`
with no comparison), so this dump yields the timeline
[(100, "0"), (50, "1")] with decreasing timestamps, contradicting both the
"regression ignored, larger time kept" behavior and the non-decreasing
invariant stated by the claim. -/
theorem C4_regression_cex :
    analyze_vcd_detailed "$var wire 1 ! q $end\n#100\n0!\n#50\n1!" =
      [("!", ⟨"q", 1, [((100 : Int), "0"), ((50 : Int), "1")]⟩)] ∧
    timesNonDecr [((100 : Int), "0"), ((50 : Int), "1")] = false := by
  constructor
  · decide
  · decide

/-- C4 (amended): both parsers set the current time to every parsed time
marker unconditionally — there is no regression guard — and timelines are
therefore non-decreasing exactly when the dump's own markers are: whenever
the marker sequence prefixed by the initial time 0 is non-decreasing, every
finalized timeline of `analyze_vcd_detailed`, and every timeline produced by
`parse_vcd`'s value loop from a header entry (initialized to the empty list),
has non-decreasing timestamps in record order. -/
theorem C4_monotone_markers :
    (∀ (st : VState) (ps : PState) (l : String) (t : Int),
      pyStartsWith (pyStrip l) "#" = true → pyInt (strTail (pyStrip l)) = some t →
      (valueStep st l).time = t ∧ (statesValueStep ps l).time = t) ∧
    (∀ (content : String) (sid : String) (info : SigInfo),
      List.Chain' (· ≤ ·) ((0 : Int) :: markersOf (splitNl content)) →
      List.lookup sid (analyze_vcd_detailed content) = some info →
      timesNonDecr info.values = true) ∧
    (∀ (lines : List String) (init : List (String × List (Int × String))) (sid : String)
        (vals : List (Int × String)),
      List.Chain' (· ≤ ·) ((0 : Int) :: markersOf lines) →
      List.lookup sid init = some [] →
      List.lookup sid (lines.foldl statesValueStep ⟨0, false, init⟩).values = some vals →
      timesNonDecr vals = true) := by
  refine ⟨?_, ?_, ?_⟩
  · intro st ps l t h hm
    rw [valueStep_time, statesStep_time, timeAfter_marker h hm st.time,
      timeAfter_marker h hm ps.time]
    exact ⟨rfl, rfl⟩
  · intro content sid info hchain hlook
    unfold analyze_vcd_detailed analyzeLines at hlook
    rw [valuePass_lookup] at hlook
    dsimp only at hlook
    cases hh : List.lookup sid (headerPass (splitNl content)).signals with
    | none =>
      rw [hh] at hlook
      exact Option.noConfusion hlook
    | some info0 =>
      rw [hh] at hlook
      have he : info0.values = [] := headerPass_values_empty _ sid info0 hh
      simp only [Option.map_some', he, List.nil_append] at hlook
      cases hlook
      exact (collect_bound_sorted sid (splitNl content) 0 hchain).1
  · intro lines init sid vals hchain hinit hlook
    rw [statesValuePass_lookup] at hlook
    dsimp only at hlook
    rw [hinit] at hlook
    simp only [Option.map_some', List.nil_append] at hlook
    cases hlook
    exact (collect_bound_sorted sid lines 0 hchain).1

/-- C4 witness: a regressing marker is accepted as-is (time 100 drops to 50),
and dumps with non-decreasing markers yield sorted timelines in both
pipelines. -/
theorem C4_monotone_markers_wit :
    (valueStep ⟨100, false, []⟩ "#50").time = 50 ∧
    timesNonDecr [((100 : Int), "1")] = true ∧
    timesNonDecr [((7 : Int), "0")] = true :=
  ⟨(C4_monotone_markers.1 ⟨100, false, []⟩ ⟨0, false, []⟩ "#50" 50 (by decide) (by decide)).1,
    C4_monotone_markers.2.1 "$var wire 1 ! q $end\n#100\n1!" "!" ⟨"q", 1, [((100 : Int), "1")]⟩
      (by
        have hm : markersOf (splitNl "$var wire 1 ! q $end\n#100\n1!") = [(100 : Int)] := by
          decide
        rw [hm]
        exact List.chain'_cons.mpr ⟨by decide, List.chain'_singleton _⟩)
      (by decide),
    C4_monotone_markers.2.2 ["#7", "0!"] [("!", [])] "!" [((7 : Int), "0")]
      (by
        have hm : markersOf ["#7", "0!"] = [(7 : Int)] := by decide
        rw [hm]
        exact List.chain'_cons.mpr ⟨by decide, List.chain'_singleton _⟩)
      (by decide) (by decide)⟩

/-! ## Claim C5 -/

/-- C5 counterexample: the line "5!" matches none of the recognized shapes
('5' is not in the scalar state-character set, and the line is not a vector
change, keyword line or time marker), yet the parser appends the record
(0, "5") to signal '!' — the unmatched line is not skipped. -/
theorem C5_unmatched_line_cex :
    analyze_vcd_detailed "$var wire 1 ! q $end\n5!" =
      [("!", ⟨"q", 1, [((0 : Int), "5")]⟩)] ∧
    (('5' == '0') || ('5' == '1') || ('5' == 'x') || ('5' == 'z') ||
      ('5' == 'X') || ('5' == 'Z')) = false := by
  constructor
  · decide
  · decide

/-- C5 (amended): in both scripts' tokenizers, any stripped line of length at
least 2 that starts with none of '#', '$', 'b', 'B' is treated as a scalar
change — value its first character (whatever it is), identifier the rest —
and appended whenever the identifier is known, rather than skipped; a line
that also fails this fallback (shorter than 2 characters) leaves the state of
either loop unchanged: it is skipped and processing never aborts. -/
theorem C5_scalar_fallback :
    (∀ (st : VState) (l : String),
      pyStartsWith (pyStrip l) "#" = false → pyStartsWith (pyStrip l) "$" = false →
      pyStartsWith (pyStrip l) "b" = false → pyStartsWith (pyStrip l) "B" = false →
      2 ≤ strLen (pyStrip l) →
      valueStep st l = appendVal (strTail (pyStrip l)) (st.time, strHead1 (pyStrip l)) st) ∧
    (∀ (ps : PState) (l : String),
      pyStartsWith (pyStrip l) "#" = false → pyStartsWith (pyStrip l) "$" = false →
      pyStartsWith (pyStrip l) "b" = false → pyStartsWith (pyStrip l) "B" = false →
      2 ≤ strLen (pyStrip l) →
      statesValueStep ps l =
        statesAppend (strTail (pyStrip l)) (ps.time, strHead1 (pyStrip l)) ps) ∧
    (∀ (st : VState) (l : String), strLen (pyStrip l) < 2 → valueStep st l = st) ∧
    (∀ (ps : PState) (l : String), strLen (pyStrip l) < 2 → statesValueStep ps l = ps) :=
  ⟨valueStep_scalar_eq, statesStep_scalar_eq, valueStep_short, statesStep_short⟩

/-- C5 witness: the fallback at the concrete unmatched line "5!" in both
loops, and the skip of the 1-character line ".". -/
theorem C5_scalar_fallback_wit :
    valueStep ⟨0, false, [("!", ⟨"q", 1, []⟩)]⟩ "5!" =
      ⟨0, false, [("!", ⟨"q", 1, [((0 : Int), "5")]⟩)]⟩ ∧
    statesValueStep ⟨0, false, [("!", [])]⟩ "5!" =
      ⟨0, false, [("!", [((0 : Int), "5")])]⟩ ∧
    valueStep ⟨0, false, []⟩ "." = ⟨0, false, []⟩ :=
  ⟨(C5_scalar_fallback.1 ⟨0, false, [("!", ⟨"q", 1, []⟩)]⟩ "5!"
      (by decide) (by decide) (by decide) (by decide) (by decide)).trans (by decide),
    (C5_scalar_fallback.2.1 ⟨0, false, [("!", [])]⟩ "5!"
      (by decide) (by decide) (by decide) (by decide) (by decide)).trans (by decide),
    C5_scalar_fallback.2.2.1 ⟨0, false, []⟩ "." (by decide)⟩

/-! ## Claim C6 -/

/-- C6 counterexample: records [(0, "x"), (600000, "")] with postResetTime
500000 — the claim's right-hand side holds (hasXAtInit is true, a record after
500000 exists and its value "" contains no unknown-state character), yet
xClearedByPostReset is false, because the empty string is falsy in the Python
conjunction `has_x_init and first_after_reset and ...`. -/
theorem C6_empty_value_cex :
    xClearedF [((0 : Int), "x"), ((600000 : Int), "")] 500000 = false ∧
    hasXInitF [((0 : Int), "x"), ((600000 : Int), "")] = true ∧
    List.find? (fun r => decide ((500000 : Int) < r.1))
      [((0 : Int), "x"), ((600000 : Int), "")] = some (600000, "") ∧
    hasUnknownXZ "" = false := by
  refine ⟨by decide, by decide, by decide, by decide⟩

/-- C6 (amended): xClearedByPostReset is true iff hasXAtInit is true, a record
with timestamp strictly greater than postResetTime exists, and the earliest
such record's value is nonempty and contains no 'x'/'X'. -/
theorem C6_x_cleared (values : List (Int × String)) (postReset : Int) :
    xClearedF values postReset = true ↔
      (hasXInitF values = true ∧
        ∃ tm v, List.find? (fun r => decide (postReset < r.1)) values = some (tm, v) ∧
          v ≠ "" ∧ containsXX v = false) := by
  unfold xClearedF
  rw [firstAfterPost_eq_find, Bool.and_eq_true]
  apply and_congr_right
  intro _
  cases hf : List.find? (fun r => decide (postReset < r.1)) values with
  | none => simp
  | some r =>
    obtain ⟨tm, v⟩ := r
    simp only [Option.map_some']
    by_cases hv : v = ""
    · subst hv
      simp
    · rw [if_neg hv]
      constructor
      · intro hb
        refine ⟨tm, v, rfl, hv, ?_⟩
        rw [← containsXLower_eq]
        simpa using hb
      · rintro ⟨tm', v', hse, hne, hcc⟩
        injection hse with hse
        injection hse with hA hB
        have hv2 : containsXLower v = false := by
          rw [containsXLower_eq, hB]
          exact hcc
        simp [hv2]

/-- C6 witness: a concrete cleared signal — X at init, first record after the
post-reset time is the nonempty value "0". -/
theorem C6_x_cleared_wit :
    xClearedF [((0 : Int), "x"), ((600000 : Int), "0")] 500000 = true :=
  (C6_x_cleared [((0 : Int), "x"), ((600000 : Int), "0")] 500000).mpr
    ⟨by decide, 600000, "0", by decide, by decide, by decide⟩

/-! ## Claim C7 -/

/-- C7 counterexample: a 4-bit signal receives the vector change "b01 !":
about the appended record's value "01" — length 2 — the claim demands length
equal to the declared bitWidth 4 (and length 1 for scalars); no width
consistency is enforced by the code. -/
theorem C7_width_mismatch_cex :
    analyze_vcd_detailed "$var wire 4 ! q $end\nb01 !" =
      [("!", ⟨"q", 4, [((0 : Int), "01")]⟩)] ∧
    strLen "01" ≠ 4 ∧ strLen "01" ≠ 1 := by
  refine ⟨by decide, by decide, by decide⟩

/-- C7 (amended): a vector-change line appends exactly the bit string written
in the dump (the first token minus its leading 'b'/'B') with no check against
the declared bitWidth, while a scalar-change line always appends a
1-character value. -/
theorem C7_value_lengths :
    (∀ (st : VState) (l : String) (p0 p1 : String) (tl : List String),
      (pyStartsWith (pyStrip l) "b" || pyStartsWith (pyStrip l) "B") = true →
      pySplit (pyStrip l) = p0 :: p1 :: tl →
      valueStep st l = appendVal p1 (st.time, strTail p0) st) ∧
    (∀ (st : VState) (l : String),
      pyStartsWith (pyStrip l) "#" = false → pyStartsWith (pyStrip l) "$" = false →
      pyStartsWith (pyStrip l) "b" = false → pyStartsWith (pyStrip l) "B" = false →
      2 ≤ strLen (pyStrip l) →
      valueStep st l = appendVal (strTail (pyStrip l)) (st.time, strHead1 (pyStrip l)) st ∧
        strLen (strHead1 (pyStrip l)) = 1) := by
  constructor
  · exact fun st l p0 p1 tl hb hsp => valueStep_vector_eq st l p0 p1 tl hb hsp
  · intro st l h1 h2 h3 h4 h5
    refine ⟨valueStep_scalar_eq st l h1 h2 h3 h4 h5, ?_⟩
    cases hd : (pyStrip l).data with
    | nil =>
      unfold strLen at h5
      rw [hd] at h5
      simp at h5
    | cons c cs => simp [strHead1, strLen, hd]

/-- C7 witness: the vector branch at the concrete mismatched line "b01 !". -/
theorem C7_value_lengths_wit :
    valueStep ⟨0, false, [("!", ⟨"q", 4, []⟩)]⟩ "b01 !" =
      ⟨0, false, [("!", ⟨"q", 4, [((0 : Int), "01")]⟩)]⟩ :=
  (C7_value_lengths.1 ⟨0, false, [("!", ⟨"q", 4, []⟩)]⟩ "b01 !" "b01" "!" []
    (by decide) (by decide)).trans (by decide)

/-! ## Claim C8 -/

/-- C8: a scalar or vector value-change line whose identifier is not a key of
the signal table leaves the state (time, flag, and the whole table) unchanged
in both scripts, and the fold over the remaining lines proceeds as if the
line were absent — the unknown identifier is silently dropped, not fatal. -/
theorem C8_unknown_id_dropped :
    (∀ (st : VState) (l : String) (p0 p1 : String) (tl : List String) (rest : List String),
      (pyStartsWith (pyStrip l) "b" || pyStartsWith (pyStrip l) "B") = true →
      pySplit (pyStrip l) = p0 :: p1 :: tl →
      List.lookup p1 st.signals = none →
      valueStep st l = st ∧ (l :: rest).foldl valueStep st = rest.foldl valueStep st) ∧
    (∀ (st : VState) (l : String) (rest : List String),
      pyStartsWith (pyStrip l) "#" = false → pyStartsWith (pyStrip l) "$" = false →
      pyStartsWith (pyStrip l) "b" = false → pyStartsWith (pyStrip l) "B" = false →
      2 ≤ strLen (pyStrip l) → List.lookup (strTail (pyStrip l)) st.signals = none →
      valueStep st l = st ∧ (l :: rest).foldl valueStep st = rest.foldl valueStep st) ∧
    (∀ (ps : PState) (l : String) (p0 p1 : String) (tl : List String),
      (pyStartsWith (pyStrip l) "b" || pyStartsWith (pyStrip l) "B") = true →
      pySplit (pyStrip l) = p0 :: p1 :: tl →
      List.lookup p1 ps.values = none →
      statesValueStep ps l = ps) ∧
    (∀ (ps : PState) (l : String),
      pyStartsWith (pyStrip l) "#" = false → pyStartsWith (pyStrip l) "$" = false →
      pyStartsWith (pyStrip l) "b" = false → pyStartsWith (pyStrip l) "B" = false →
      2 ≤ strLen (pyStrip l) → List.lookup (strTail (pyStrip l)) ps.values = none →
      statesValueStep ps l = ps) := by
  have hV : ∀ (st : VState) (sid : String) (e : Int × String),
      List.lookup sid st.signals = none → appendVal sid e st = st := by
    intro st sid e h
    unfold appendVal
    rw [dictUpdate_absent _ h]
  have hP : ∀ (ps : PState) (sid : String) (e : Int × String),
      List.lookup sid ps.values = none → statesAppend sid e ps = ps := by
    intro ps sid e h
    unfold statesAppend
    rw [dictUpdate_absent _ h]
  refine ⟨?_, ?_, ?_, ?_⟩
  · intro st l p0 p1 tl rest hb hsp hlk
    have h1 : valueStep st l = st := by
      rw [valueStep_vector_eq st l p0 p1 tl hb hsp, hV st p1 _ hlk]
    exact ⟨h1, by rw [List.foldl_cons, h1]⟩
  · intro st l rest h1 h2 h3 h4 h5 hlk
    have h0 : valueStep st l = st := by
      rw [valueStep_scalar_eq st l h1 h2 h3 h4 h5, hV st _ _ hlk]
    exact ⟨h0, by rw [List.foldl_cons, h0]⟩
  · intro ps l p0 p1 tl hb hsp hlk
    rw [statesStep_vector_eq ps l p0 p1 tl hb hsp, hP ps p1 _ hlk]
  · intro ps l h1 h2 h3 h4 h5 hlk
    rw [statesStep_scalar_eq ps l h1 h2 h3 h4 h5, hP ps _ _ hlk]

/-- C8 witness: a vector change for the unknown identifier '?' leaves the
empty table (and whole state) unchanged. -/
theorem C8_unknown_id_dropped_wit :
    valueStep ⟨0, false, []⟩ "b1 ?" = ⟨0, false, []⟩ :=
  (C8_unknown_id_dropped.1 ⟨0, false, []⟩ "b1 ?" "b1" "?" [] []
    (by decide) (by decide) (by decide)).1

/-! ## Claim C9 -/

/-- C9: the dump parsers are total and the three guarded spots behave as
claimed: a time-marker line whose suffix is not an integer leaves the state
unchanged (the guarded int parse swallows it), a line of fewer than 2
characters produces no record and no state change, and a scope-close with an
empty scope stack leaves the stack empty. -/
theorem C9_guarded_parsing :
    (∀ (st : VState) (l : String),
      pyStartsWith (pyStrip l) "#" = true → pyInt (strTail (pyStrip l)) = none →
      valueStep st l = st) ∧
    (∀ (ps : PState) (l : String),
      pyStartsWith (pyStrip l) "#" = true → pyInt (strTail (pyStrip l)) = none →
      statesValueStep ps l = ps) ∧
    (∀ (st : VState) (l : String), strLen (pyStrip l) < 2 → valueStep st l = st) ∧
    (∀ (ps : PState) (l : String), strLen (pyStrip l) < 2 → statesValueStep ps l = ps) ∧
    (∀ (hst : HState) (l : String),
      pyStartsWith (pyStrip l) "$upscope" = true → hst.stack = [] →
      (headerStep hst l).stack = []) := by
  refine ⟨?_, ?_, valueStep_short, statesStep_short, ?_⟩
  · intro st l h hm
    simp only [valueStep]
    rw [if_pos h, hm]
  · intro ps l h hm
    simp only [statesValueStep]
    rw [if_pos h, hm]
  · intro hst l hsw hstk
    obtain ⟨rest, hdata⟩ := startsWith_shape hsw
    rw [data_upscope] at hdata
    have h1 : pyStartsWith (pyStrip l) "$scope" = false := by
      unfold pyStartsWith
      rw [data_scope, hdata]
      rfl
    simp only [headerStep, h1, hsw]
    simp [hstk]

/-- C9 witness: the three guarded behaviors at concrete inputs. -/
theorem C9_guarded_parsing_wit :
    valueStep ⟨0, false, []⟩ "#zz" = ⟨0, false, []⟩ ∧
    statesValueStep ⟨0, false, []⟩ "x" = ⟨0, false, []⟩ ∧
    (headerStep ⟨[], []⟩ "$upscope $end").stack = [] :=
  ⟨C9_guarded_parsing.1 ⟨0, false, []⟩ "#zz" (by decide) (by decide),
    C9_guarded_parsing.2.2.2.1 ⟨0, false, []⟩ "x" (by decide),
    C9_guarded_parsing.2.2.2.2 ⟨[], []⟩ "$upscope $end" (by decide) rfl⟩

/-! ## Claim C10 -/

/-- C10: if the same identifier is declared several times, the finalized
signal table maps it to the last declaration — in `analyze_vcd_detailed` the
scope-qualified name and width, in `parse_vcd` the name (its table stores no
width) — with the value list reset to empty at each (re-)declaration, and,
because the header pass runs over all lines (respectively all regex matches)
before the value pass appends anything, the final timeline still collects
every matching change of the whole dump, including changes textually before
the re-declaration.  For `parse_vcd` the finditer match list is a parameter,
so the property holds for every possible match sequence. -/
theorem C10_redeclaration :
    (∀ (pre : List String) (l : String) (post : List String) (w : Nat) (sid nm : String),
      pyStartsWith (pyStrip l) "$var" = true →
      varMatch (pyStrip l) = some (w, sid, nm) →
      (∀ l' ∈ post, declaresVar sid l' = false) →
      List.lookup sid (analyzeLines (pre ++ l :: post)) =
        some ⟨joinDots ((pre.foldl headerStep ⟨[], []⟩).stack ++ [nm]), w,
          collectChangesFor sid 0 (pre ++ l :: post)⟩) ∧
    (∀ (ms1 ms2 : List (String × String)) (sid nm : String) (lines : List String),
      (∀ m ∈ ms2, m.1 ≠ sid) →
      List.lookup sid (parse_vcd_tables (ms1 ++ (sid, nm) :: ms2) lines).1 = some nm ∧
      List.lookup sid (parse_vcd_tables (ms1 ++ (sid, nm) :: ms2) lines).2 =
        some (collectChangesFor sid 0 lines)) := by
  constructor
  · intro pre l post w sid nm hsw hvm hpost
    unfold analyzeLines
    rw [valuePass_lookup]
    dsimp only
    rw [headerPass_append_decl pre l post hsw hvm hpost]
    simp
  · intro ms1 ms2 sid nm lines hms
    obtain ⟨hp1, hp2⟩ := statesVarAction_preserve sid ms2
      (statesVarAction (ms1.foldl statesVarAction ([], [])) (sid, nm)) hms
    unfold parse_vcd_tables
    rw [List.foldl_append, List.foldl_cons]
    constructor
    · rw [hp1]
      exact lookup_dictInsert_self _ _ _
    · rw [statesValuePass_lookup]
      dsimp only
      rw [hp2]
      simp only [statesVarAction]
      rw [lookup_dictInsert_self]
      simp

/-- C10 witness: identifier '!' declared twice in both pipelines; the final
entry carries the second declaration's name (and width, where stored), and
both value changes of the dump — including the one before the
re-declaration. -/
theorem C10_redeclaration_wit :
    List.lookup "!" (analyzeLines ["$scope module top $end", "$var wire 1 ! a $end", "0!",
      "$var wire 2 ! bb $end", "#10", "1!"]) =
      some ⟨"top.bb", 2, [((0 : Int), "0"), ((10 : Int), "1")]⟩ ∧
    List.lookup "!" (parse_vcd_tables [("!", "a"), ("!", "bb")] ["0!", "#10", "1!"]).1 =
      some "bb" ∧
    List.lookup "!" (parse_vcd_tables [("!", "a"), ("!", "bb")] ["0!", "#10", "1!"]).2 =
      some [((0 : Int), "0"), ((10 : Int), "1")] :=
  ⟨(C10_redeclaration.1 ["$scope module top $end", "$var wire 1 ! a $end", "0!"]
      "$var wire 2 ! bb $end" ["#10", "1!"] 2 "!" "bb"
      (by decide) (by decide) (by decide)).trans (by decide),
    (C10_redeclaration.2 [("!", "a")] [] "!" "bb" ["0!", "#10", "1!"] (by decide)).1.trans
      (by decide),
    (C10_redeclaration.2 [("!", "a")] [] "!" "bb" ["0!", "#10", "1!"] (by decide)).2.trans
      (by decide)⟩

end CheckX
